import Mathlib

/-!
Verification of the framework-control-native EC core against its specification.

The Rust sources are shallowly embedded: machine bytes become `Nat`s, the
Windows device layer (`CreateFileW` / `DeviceIoControl`) becomes explicit
oracle functions passed as parameters, fallible code returns `Except` or
`Option`, and a slice operation that would panic in Rust is modelled by an
outer `Option` whose `none` stands for the panic/abort.
-/

set_option maxRecDepth 4000

namespace FrameworkControl

/-! ## Device transport (`service/src/ec.rs`) -/

/-- Error taxonomy of the device transport (`enum EcError` in `ec.rs`). -/
inductive EcError where
  | AccessDenied : EcError
  | DriverMissing : EcError
  | IoError : String → EcError
deriving DecidableEq

/-- Outcome of one `CreateFileW` attempt on a device path: the device opened,
the OS returned `ERROR_ACCESS_DENIED`, or some other error occurred. -/
inductive OpenOutcome where
  | opened : OpenOutcome
  | denied : OpenOutcome
  | failed : OpenOutcome
deriving DecidableEq

/-- The fixed, ordered list of candidate CrosEC device paths from
`get_ec_handle` in `ec.rs`. -/
def ecPaths : List String :=
  [ "\\\\.\\GLOBALROOT\\Device\\CrosEC"
  , "\\\\.\\CrosEC"
  , "\\\\.\\GLOBALROOT\\Device\\CrosECDevice"
  , "\\\\.\\crosecbus"
  , "\\\\.\\GLOBALROOT\\Device\\crosecbus"
  , "\\\\.\\GLOBALROOT\\Device\\CrosEcBus"
  , "\\\\.\\crossecbus"
  , "\\\\.\\GLOBALROOT\\Device\\crossecbus"
  , "\\\\.\\GLOBALROOT\\Device\\CrosSecBus" ]

/-- The path-trying loop of `get_ec_handle`: on success return the handle
(modelled as the path that opened); on `ERROR_ACCESS_DENIED` return
`AccessDenied` immediately; on any other error continue with the next path;
when the list is exhausted return `DriverMissing`. -/
def tryPaths (env : String → OpenOutcome) : List String → Except EcError String
  | [] => .error .DriverMissing
  | p :: rest =>
    match env p with
    | .opened => .ok p
    | .denied => .error .AccessDenied
    | .failed => tryPaths env rest

/-- `get_ec_handle` from `ec.rs`, over the oracle `env` that gives each
path's `CreateFileW` outcome. -/
def get_ec_handle (env : String → OpenOutcome) : Except EcError String :=
  tryPaths env ecPaths

/-- `EC_MEMMAP_SIZE` from `ec.rs`. -/
def EC_MEMMAP_SIZE : Nat := 255

/-- `HEADER_LEN` from `ec.rs`. -/
def HEADER_LEN : Nat := 8

/-- `CROSEC_CMD_MAX_REQUEST` from `ec.rs` (0x100). -/
def CROSEC_CMD_MAX_REQUEST : Nat := 256

/-- The `EcCommand` control frame of `send_ec_command` (bytes as `Nat`s,
`buffer` of capacity `CROSEC_CMD_MAX_REQUEST`). -/
structure EcCommand where
  version : Nat
  command : Nat
  outsize : Nat
  insize : Nat
  result : Nat
  buffer : List Nat
deriving DecidableEq

/-- Device response to the `IOCTL_CROSEC_XCMD` transfer: whether the ioctl
failed with `ERROR_ACCESS_DENIED`, the post-transfer frame buffer, the
returned byte count, and the frame's result code as written by the device. -/
structure DevResp where
  accessDenied : Bool
  buffer : List Nat
  returned : Nat
  result : Nat
deriving DecidableEq

/-- The slice-assignment `cmd.buffer[..data.len()].copy_from_slice(data)`
on the zero-initialised 256-byte buffer: `none` models the Rust panic when
`data.len()` exceeds the buffer capacity. -/
def buildEcBuffer (data : List Nat) : Option (List Nat) :=
  if data.length ≤ CROSEC_CMD_MAX_REQUEST then
    some (data ++ List.replicate (CROSEC_CMD_MAX_REQUEST - data.length) 0)
  else none

/-- The `EcCommand` frame as `send_ec_command` constructs it before the
transfer: the header fields of the source's struct literal, the payload
copied to the start of the zeroed buffer (`none` = the copy panics). -/
def buildEcCommand (command version : Nat) (data : List Nat) : Option EcCommand :=
  (buildEcBuffer data).map fun buf =>
    ⟨version, command, data.length, CROSEC_CMD_MAX_REQUEST - HEADER_LEN, 0xFF, buf⟩

/-- `send_ec_command` from `ec.rs`. `env` is the open-oracle, `dev` the
transfer-oracle. The outer `Option` is `none` exactly when the Rust code
would panic (payload longer than the frame buffer). After the transfer the
source first maps an access-denied ioctl error, then a nonzero frame
result code, and otherwise returns the first `min(returned, capacity)`
bytes of the buffer. -/
def send_ec_command (env : String → OpenOutcome) (dev : EcCommand → DevResp)
    (command : Nat) (version : Nat) (data : List Nat) :
    Option (Except EcError (List Nat)) :=
  match get_ec_handle env with
  | .error e => some (.error e)
  | .ok _ =>
    match buildEcCommand command version data with
    | none => none
    | some cmd =>
      let resp := dev cmd
      if resp.accessDenied then some (.error .AccessDenied)
      else if resp.result ≠ 0 then
        some (.error (.IoError ("EC result code: " ++ toString resp.result)))
      else some (.ok (resp.buffer.take (min resp.returned CROSEC_CMD_MAX_REQUEST)))

/-- Device response to the `IOCTL_CROSEC_RDMEM` ioctl: the success flag of
`DeviceIoControl` (which the code discards) and the post-transfer buffer. -/
structure MemResp where
  ok : Bool
  buffer : List Nat
deriving DecidableEq

/-- `read_ec_memory` from `ec.rs`. The inner `Option` is the Rust
`Option<Vec<u8>>` return value; the outer `Option` is `none` exactly when
the Rust code would panic (`length` beyond the 255-byte buffer).
`get_ec_handle().ok()?` discards the open error, and the `DeviceIoControl`
result is discarded (`let _ = ...` in the source), so the success flag of
the transfer never influences the returned value. -/
def read_ec_memory (env : String → OpenOutcome)
    (mdev : Nat → Nat → List Nat → MemResp) (offset length : Nat) :
    Option (Option (List Nat)) :=
  match get_ec_handle env with
  | .error _ => some none
  | .ok _ =>
    let resp := mdev offset length (List.replicate EC_MEMMAP_SIZE 0)
    if length ≤ EC_MEMMAP_SIZE then some (some (resp.buffer.take length))
    else none

/-- The per-byte temperature decoding of `read_temps`: bytes ≥ 0xFC are
sentinels; otherwise the value is `byte − 73` °C, kept only strictly inside
the (−50, 150) sanity band. Temperatures are integral in the source (an
`i16` cast to `f32`), so `Int` is exact. -/
def tempFromByte (t : Nat) : Option Int :=
  if t < 0xFC then
    let temp_c : Int := (t : Int) - 73
    if -50 < temp_c ∧ temp_c < 150 then some temp_c else none
  else none

/-- The accumulation loop of `read_temps` over the raw bytes. -/
def decode_temps (data : List Nat) : List Int :=
  data.filterMap tempFromByte

/-- `read_temps` from `ec.rs`: reads 0x0F bytes at offset 0x00 and decodes
them; an absent read yields the empty list. -/
def read_temps (env : String → OpenOutcome)
    (mdev : Nat → Nat → List Nat → MemResp) : List Int :=
  match read_ec_memory env mdev 0x00 0x0F with
  | some (some data) => decode_temps data
  | _ => []

/-! ## ryzenadj table parser (`service/src/cli/ryzen_adj_parser.rs`)

String operations are embedded over `List Char` with structural recursion so
that concrete runs reduce in the kernel. `rustLines` models `str::lines`:
it splits on a newline; the carriage returns and the trailing empty line
that `str::lines` treats specially are absorbed downstream by `trimChars`
and the `starts_with('|')` filter, so the embedding is observationally
faithful for `parse_info`. -/

/-- ASCII whitespace test, the fragment of `char::is_whitespace` relevant to
the table text handled by the parser. -/
def isWsChar (c : Char) : Bool :=
  c = ' ' ∨ c = '\t' ∨ c = '\r' ∨ c = '\n'

/-- `str::trim` over characters. -/
def trimChars (cs : List Char) : List Char :=
  ((cs.dropWhile isWsChar).reverse.dropWhile isWsChar).reverse

/-- Split a character list at every occurrence of `c` (Rust `str::split`). -/
def splitOnChar (c : Char) : List Char → List (List Char)
  | [] => [[]]
  | x :: xs =>
    let r := splitOnChar c xs
    if x = c then [] :: r
    else
      match r with
      | h :: t => (x :: h) :: t
      | [] => [[x]]

/-- Boolean list-prefix test (Rust `str::starts_with`). -/
def isPrefixB : List Char → List Char → Bool
  | [], _ => true
  | _ :: _, [] => false
  | a :: as, b :: bs => a = b && isPrefixB as bs

/-- Boolean substring test (Rust `str::contains`). -/
def containsSub (needle : List Char) : List Char → Bool
  | [] => isPrefixB needle []
  | c :: cs => isPrefixB needle (c :: cs) || containsSub needle cs

/-- `char::to_ascii_uppercase`. -/
def asciiUpper (c : Char) : Char :=
  if 97 ≤ c.toNat ∧ c.toNat ≤ 122 then Char.ofNat (c.toNat - 32) else c

/-- Fold a digit list into a natural number (assumes all digits). -/
def digitsVal (cs : List Char) : Nat :=
  cs.foldl (fun a c => 10 * a + (c.toNat - 48)) 0

/-- The fragment of Rust's `str::parse::<f32>` exercised by the ryzenadj
table: an optional sign, then decimal digits with at most one point and at
least one digit. The digits `a.b` denote the exact rational
`sign * (a + b / 10 ^ |b|)`, built here as a single `mkRat` (see
`parseDecimal_frac` below for the equality of the two forms); the table
values ("45.000", "60.000", ...) are exactly representable in `f32`, so the
`ℚ` model agrees with the `f32` computation on them. -/
def parseDecimal (cs : List Char) : Option ℚ :=
  let signed : Int × List Char :=
    match cs with
    | '-' :: r => (-1, r)
    | '+' :: r => (1, r)
    | r => (1, r)
  match splitOnChar '.' signed.2 with
  | [a] =>
    if a ≠ [] ∧ a.all Char.isDigit then
      some (mkRat (signed.1 * digitsVal a) 1)
    else none
  | [a, b] =>
    if (a ≠ [] ∨ b ≠ []) ∧ a.all Char.isDigit ∧ b.all Char.isDigit then
      some (mkRat (signed.1 * (digitsVal a * 10 ^ b.length + digitsVal b))
        (10 ^ b.length))
    else none
  | _ => none

/-- `f32::round`: round half away from zero, exact on `ℚ`. For `q = n / d`
the magnitude is `⌊(2|n| + d) / 2d⌋`, computed by integer division; see
`roundHalfAway_eq` below for the floor/ceiling characterisation. -/
def roundHalfAway (q : ℚ) : Int :=
  let m : Nat := (2 * q.num.natAbs + q.den) / (2 * q.den)
  if 0 ≤ q.num then (m : Int) else -(m : Int)

/-- Rust's saturating float-to-`u32` cast (`as u32`): negative values clamp
to 0, values beyond `u32::MAX` clamp to `u32::MAX`. -/
def intToU32 (i : Int) : Nat :=
  (min i 4294967295).toNat

/-- `RyzenAdjInfo` from `ryzen_adj_parser.rs` (the two optional fields). -/
structure RyzenAdjInfo where
  tdp_watts : Option Nat
  thermal_limit_c : Option Nat
deriving DecidableEq

/-- One iteration of the line loop of `parse_info`: the accumulator carries
the collected power-limit candidates (`limits_w`) and the current
`thermal_limit_c`. -/
def parseInfoLine (acc : List ℚ × Option Nat) (line : List Char) :
    List ℚ × Option Nat :=
  let l := trimChars line
  if ¬ isPrefixB ['|'] l = true ∨ isPrefixB ['|', '-'] l then acc
  else
    let parts := splitOnChar '|' l
    if parts.length < 3 then acc
    else
      let name := (trimChars (parts.getD 1 [])).map asciiUpper
      let valueStr := trimChars (parts.getD 2 [])
      match parseDecimal valueStr with
      | none => acc
      | some v =>
        let acc1 :=
          if containsSub "STAPM LIMIT".data name
              || containsSub "PPT LIMIT FAST".data name
              || containsSub "PPT LIMIT SLOW".data name then
            (acc.1 ++ [v], acc.2)
          else acc
        if containsSub "THM LIMIT CORE".data name
            || containsSub "TCTL".data name then
          (acc1.1, some (intToU32 (roundHalfAway v)))
        else acc1

/-- The power-limit candidates and thermal limit collected by the line loop
of `parse_info` over the whole text. -/
def collectInfo (text : String) : List ℚ × Option Nat :=
  (splitOnChar '\n' text.data).foldl parseInfoLine ([], none)

/-- `parse_info` from `ryzen_adj_parser.rs`: empty input short-circuits;
otherwise the line loop runs and the reported TDP is the minimum of the
collected limits (the fold with `f32::INFINITY` as the initial accumulator,
which over a nonempty list is the list minimum and is always finite here),
rounded, floored at 1; an empty candidate list leaves the TDP unset. -/
def parse_info (text : String) : RyzenAdjInfo :=
  if text.data = [] then ⟨none, none⟩
  else
    let c := collectInfo text
    let tdp : Option Nat :=
      match c.1 with
      | [] => none
      | h :: t => some (intToU32 (max (roundHalfAway (t.foldl min h)) 1))
    ⟨tdp, c.2⟩

/-! ## Fan curve (`fan_curve_methods.rs` and `main.rs::apply_fan_curve`)

Temperatures and duties are `f32` in the source; the interpolation algebra is
modelled over `ℚ`, where the algorithm's case structure is exact. -/

/-- A fan-curve point `(temperature, duty-percent)`. -/
structure FanPoint where
  temp : ℚ
  duty : ℚ
deriving DecidableEq

/-- The single pass of `interpolate_curve` that computes the surrounding
points: `lower` is overwritten by every point with `temp ≤ t` (last match
wins), `upper` is set by the first point with `temp ≥ t`. -/
def findBracket (curve : List FanPoint) (t : ℚ) :
    Option FanPoint × Option FanPoint :=
  curve.foldl
    (fun acc p =>
      ( if p.temp ≤ t then some p else acc.1
      , if p.temp ≥ t ∧ acc.2 = none then some p else acc.2))
    (none, none)

/-- `interpolate_curve` from `fan_curve_methods.rs`: empty curve falls back
to duty 50; otherwise match on the surrounding points exactly as the source
`match (lower, upper)` does. -/
def interpolate_curve (curve : List FanPoint) (t : ℚ) : ℚ :=
  if curve = [] then 50
  else
    match findBracket curve t with
    | (some p1, some p2) =>
      if p1.temp ≠ p2.temp then
        p1.duty + (p2.duty - p1.duty) * ((t - p1.temp) / (p2.temp - p1.temp))
      else p1.duty
    | (some p, none) => p.duty
    | (none, some p) => p.duty
    | (none, none) => 50

/-- The indexed `for i in 0..curve.len()` loop of `apply_fan_curve` in
`main.rs`, walking the suffix of the curve that starts at index `i`; each
`break` of the source is a return here, and falling off the end leaves the
initial duty 50. `curve` is the whole curve (for `curve.len()`), `s` the
suffix `curve.drop i`. -/
def applyGo (curve : List FanPoint) (t : ℚ) : Nat → List FanPoint → ℚ
  | _, [] => 50
  | i, p :: rest =>
    if i = 0 ∧ t ≤ p.temp then p.duty
    else if i = curve.length - 1 ∧ p.temp ≤ t then p.duty
    else
      match rest with
      | q :: _ =>
        if i < curve.length - 1 ∧ p.temp ≤ t ∧ t ≤ q.temp then
          p.duty + (q.duty - p.duty) * ((t - p.temp) / (q.temp - p.temp))
        else applyGo curve t (i + 1) rest
      | [] => applyGo curve t (i + 1) rest

/-- The duty computed by one tick of the `apply_fan_curve` loop in
`main.rs` (`let mut duty = 50.0; for i in 0..curve.len() { ... }`). -/
def applyFanCurveDuty (curve : List FanPoint) (t : ℚ) : ℚ :=
  applyGo curve t 0 curve

/-- Strictly-ascending-temperature test for a curve (the sorted precondition
of the claims, decidable for concrete witnesses). -/
def sortedStrict : List FanPoint → Bool
  | [] => true
  | [_] => true
  | p :: q :: r => decide (p.temp < q.temp) && sortedStrict (q :: r)

/-! ## Backend resolver loops (`main.rs::spawn_ryzenadj_resolver` and
`main.rs::spawn_framework_tool_resolver`)

Each 5-second tick of a loop is one application of a step function on the
shared slot plus the local consecutive-error counter. The environment of a
tick — what `RyzenAdj::new()` / `FrameworkTool::new()` would return, and
whether the `versions()` liveness probe would succeed — is passed as
arguments. -/

/-- The state a resolver loop acts on: the shared `Arc<RwLock<Option<H>>>`
slot and its local `consecutive_errors` counter. -/
structure ResolverState (H : Type) where
  slot : Option H
  consecutiveErrors : Nat
deriving DecidableEq

/-- One tick of `spawn_ryzenadj_resolver`: only when the slot is `None` is a
resolution attempted (`RyzenAdj::new()`, outcome `res`); success stores the
handle and zeroes the error counter, failure increments it. When the slot
is `Some` the tick does nothing at all. -/
def ryzenadjTick {H : Type} (res : Except String H) (s : ResolverState H) :
    ResolverState H :=
  match s.slot with
  | some _ => s
  | none =>
    match res with
    | .ok h => ⟨some h, 0⟩
    | .error _ => ⟨none, s.consecutiveErrors + 1⟩

/-- One tick of `spawn_framework_tool_resolver`: while the slot is `Some`
the `versions()` liveness probe runs (outcome `probeOk`) and a failure
clears the slot and the counter; while it is `None` a resolution is
attempted (`FrameworkTool::new()`, outcome `res`) exactly as in the
ryzenadj loop. -/
def frameworkToolTick {H : Type} (probeOk : Bool) (res : Except String H)
    (s : ResolverState H) : ResolverState H :=
  match s.slot with
  | some _ => if probeOk then s else ⟨none, 0⟩
  | none =>
    match res with
    | .ok h => ⟨some h, 0⟩
    | .error _ => ⟨none, s.consecutiveErrors + 1⟩

/-! ## Single-flight TTL cache

`RyzenAdj::info_with_error_cache` delegates to
`utils::global_cache::cache_get_or_update`, whose module is not among the
sources; only this caller is. The cache is therefore modelled from the
spec. -/

/-- Modelled from the spec: the per-key state of the single-flight TTL cache
behind `global_cache::cache_get_or_update` (the `utils::global_cache` module
is missing from the sources). `entry` is the stored result with its
fetched-at timestamp, `inflight` whether a fetch is currently executing,
`waiters` the callers awaiting that fetch, and `fetches` counts the
underlying fetch executions (the external process invocations). -/
structure CacheState (α : Type) where
  entry : Option (Except String α × Nat)
  inflight : Bool
  waiters : List Nat
  fetches : Nat

/-- Modelled from the spec: whether a live entry exists at time `now`
(`now - fetched-at < ttl`). -/
def liveEntry {α : Type} (s : CacheState α) (now ttl : Nat) :
    Option (Except String α) :=
  match s.entry with
  | some (v, at_) => if now - at_ < ttl then some v else none
  | none => none

/-- Modelled from the spec: a caller arriving at `cache_get_or_update`.
A live entry is returned immediately without fetching; otherwise, if a
fetch is in flight the caller joins its waiters; otherwise a new underlying
fetch starts (counted in `fetches`) with the caller as its first waiter. -/
def cacheArrive {α : Type} (now ttl caller : Nat) (s : CacheState α) :
    CacheState α × Option (Except String α) :=
  match liveEntry s now ttl with
  | some v => (s, some v)
  | none =>
    if s.inflight then (⟨s.entry, true, caller :: s.waiters, s.fetches⟩, none)
    else (⟨s.entry, true, [caller], s.fetches + 1⟩, none)

/-- Modelled from the spec: the in-flight fetch completing with result `r`.
The result is relayed to every waiter; a success is stored with a fresh
timestamp, a failure is stored only when `cacheErrors` is set. -/
def cacheComplete {α : Type} (now : Nat) (cacheErrors : Bool)
    (r : Except String α) (s : CacheState α) :
    CacheState α × List (Nat × Except String α) :=
  let entry : Option (Except String α × Nat) :=
    match r with
    | .ok v => some (.ok v, now)
    | .error e => if cacheErrors then some (.error e, now) else s.entry
  (⟨entry, false, [], s.fetches⟩, s.waiters.map fun c => (c, r))

/-! ## Concrete test fixtures (environments and devices used to instantiate
the theorems below at concrete inputs) -/

/-- Every candidate path opens. -/
def envAllOk : String → OpenOutcome := fun _ => .opened

/-- No candidate path opens; no access-denied error either. -/
def envAllFail : String → OpenOutcome := fun _ => .failed

/-- Only the third candidate path opens; the earlier ones fail. -/
def envOpenThird : String → OpenOutcome := fun p =>
  if p = "\\\\.\\GLOBALROOT\\Device\\CrosECDevice" then .opened else .failed

/-- The second candidate path reports access denied; the others fail. -/
def envDenySecond : String → OpenOutcome := fun p =>
  if p = "\\\\.\\CrosEC" then .denied else .failed

/-- A device that succeeds, echoes the frame buffer back and reports 5
returned bytes. -/
def echoDev : EcCommand → DevResp := fun c => ⟨false, c.buffer, 5, 0⟩

/-- A device whose transfer completes but writes result code 3. -/
def failDev : EcCommand → DevResp := fun c => ⟨false, c.buffer, 5, 3⟩

/-- A memory read whose `DeviceIoControl` reports failure and leaves the
buffer untouched. -/
def mdevNoop : Nat → Nat → List Nat → MemResp := fun _ _ b => ⟨false, b⟩

/-- A memory read that succeeds and places the bytes `[73, 0xFF, 120]` at
the start of the buffer. -/
def mdevTemps : Nat → Nat → List Nat → MemResp := fun _ _ b =>
  ⟨true, 73 :: 255 :: 120 :: b.drop 3⟩

/-- A concrete `ryzenadj --info --dump-table` excerpt with the three power
limits 45.000 / 60.000 / 50.000 W. -/
def ryzenadjDump : String :=
"CPU Family: Rembrandt\n|        Name         |   Value   |     Parameter      |\n|---------------------|-----------|--------------------|\n| STAPM LIMIT         |    45.000 | stapm-limit        |\n| PPT LIMIT FAST      |    60.000 | fast-limit         |\n| PPT LIMIT SLOW      |    50.000 | slow-limit         |"

/-- A concrete three-point fan curve, sorted ascending by temperature. -/
def curveEx : List FanPoint := [⟨40, 20⟩, ⟨60, 40⟩, ⟨80, 100⟩]

/-- The concrete frame `send_ec_command` builds for command 0x13, version 0
and payload `[1, 2, 3]`. -/
def cmdEx : EcCommand :=
  ⟨0, 0x13, 3, CROSEC_CMD_MAX_REQUEST - HEADER_LEN, 0xFF, [1, 2, 3] ++ List.replicate 253 0⟩

/-! ## Supporting lemmas -/

/-- The `mkRat` used by `parseDecimal` is the textbook value of the decimal
numeral `sign * (intPart + fracPart / 10 ^ fracLen)`. -/
theorem parseDecimal_frac (s : Int) (a b l : Nat) :
    (mkRat (s * (a * 10 ^ l + b)) (10 ^ l) : ℚ) =
      (s : ℚ) * ((a : ℚ) + (b : ℚ) / 10 ^ l) := by
  rw [Rat.mkRat_eq_div]
  push_cast
  have h : ((10 : ℚ) ^ l) ≠ 0 := by positivity
  field_simp

/-- The integer form used by `roundHalfAway` computes the floor of
`q + 1/2` for nonnegative `q`. -/
theorem floorHalfAux (q : ℚ) (h : 0 ≤ q.num) :
    ⌊q + 1/2⌋ = (((2 * q.num.natAbs + q.den) / (2 * q.den) : ℕ) : Int) := by
  have hd : (0 : ℚ) < (q.den : ℚ) := by exact_mod_cast q.pos
  have hna : ((q.num.natAbs : ℚ)) = ((q.num : ℚ)) := by
    rw [Int.cast_natAbs]
    exact_mod_cast abs_of_nonneg h
  have hqe : q + 1/2 = (((2 * q.num.natAbs + q.den : ℕ) : ℚ) / ((2 * q.den : ℕ) : ℚ)) := by
    conv_lhs => rw [← Rat.num_div_den q]
    push_cast
    rw [hna]
    field_simp
    ring
  rw [hqe, ← Int.natCast_floor_eq_floor (by positivity), Nat.floor_div_eq_div]

/-- `roundHalfAway` is rounding half away from zero: `⌊q + 1/2⌋` for
nonnegative `q` and `⌈q - 1/2⌉` for negative `q` — the semantics of
`f32::round`. -/
theorem roundHalfAway_eq (q : ℚ) :
    roundHalfAway q = if 0 ≤ q then ⌊q + 1/2⌋ else ⌈q - 1/2⌉ := by
  unfold roundHalfAway
  by_cases h : 0 ≤ q.num
  · rw [if_pos h, if_pos (Rat.num_nonneg.mp h), floorHalfAux q h]
  · rw [if_neg h, if_neg (fun hq => h (Rat.num_nonneg.mpr hq))]
    have h2 : (0 : Int) ≤ (-q).num := by
      rw [Rat.neg_num]
      omega
    have hfl := floorHalfAux (-q) h2
    rw [Rat.neg_num, Rat.neg_den, Int.natAbs_neg] at hfl
    have hrw : -q + 1/2 = -(q - 1/2) := by ring
    rw [hrw, Int.floor_neg] at hfl
    omega

end FrameworkControl
namespace FrameworkControl

/-- The path loop tried in order: if every path before index `i` merely
failed and the path at `i` opens, that path's handle is returned. -/
theorem tryPaths_opened (env : String → OpenOutcome) :
    ∀ (l : List String) (i : Nat) (q : String),
      (∀ p ∈ l.take i, env p = .failed) → l.get? i = some q →
      env q = .opened → tryPaths env l = .ok q := by
  intro l
  induction l with
  | nil => intro i q _ hq; simp at hq
  | cons p rest ih =>
    intro i q hpre hq hop
    cases i with
    | zero =>
      simp at hq
      subst hq
      simp [tryPaths, hop]
    | succ n =>
      have hp : env p = .failed := hpre p (by simp)
      simp [tryPaths, hp]
      exact ih n q (fun x hx => hpre x (by simp [hx])) (by simpa using hq) hop

theorem tryPaths_denied (env : String → OpenOutcome) :
    ∀ (l : List String) (i : Nat) (q : String),
      (∀ p ∈ l.take i, env p = .failed) → l.get? i = some q →
      env q = .denied → tryPaths env l = .error .AccessDenied := by
  intro l
  induction l with
  | nil => intro i q _ hq; simp at hq
  | cons p rest ih =>
    intro i q hpre hq hden
    cases i with
    | zero =>
      simp at hq
      subst hq
      simp [tryPaths, hden]
    | succ n =>
      have hp : env p = .failed := hpre p (by simp)
      simp [tryPaths, hp]
      exact ih n q (fun x hx => hpre x (by simp [hx])) (by simpa using hq) hden

theorem tryPaths_exhausted (env : String → OpenOutcome) :
    ∀ (l : List String), (∀ p ∈ l, env p = .failed) →
      tryPaths env l = .error .DriverMissing := by
  intro l
  induction l with
  | nil => intro _; rfl
  | cons p rest ih =>
    intro hall
    have hp : env p = .failed := hall p (by simp)
    simp [tryPaths, hp]
    exact ih (fun x hx => hall x (by simp [hx]))


/-- C7: `get_ec_handle` tries the candidate device paths in their fixed
listed order; if every earlier path merely failed, the first path that
opens determines the returned handle, and an access-denied error at any
attempt yields `AccessDenied` immediately — the statement constrains `env`
only up to that index, so later paths cannot influence the result; only
when every path fails without access-denied does it return
`DriverMissing`. -/
theorem get_ec_handle_order_spec (env : String → OpenOutcome) :
    (∀ i q, (∀ p ∈ ecPaths.take i, env p = .failed) → ecPaths.get? i = some q →
      env q = .opened → get_ec_handle env = .ok q) ∧
    (∀ i q, (∀ p ∈ ecPaths.take i, env p = .failed) → ecPaths.get? i = some q →
      env q = .denied → get_ec_handle env = .error .AccessDenied) ∧
    ((∀ p ∈ ecPaths, env p = .failed) → get_ec_handle env = .error .DriverMissing) := by
  refine ⟨?_, ?_, ?_⟩
  · intro i q h1 h2 h3
    exact tryPaths_opened env ecPaths i q h1 h2 h3
  · intro i q h1 h2 h3
    exact tryPaths_denied env ecPaths i q h1 h2 h3
  · intro h
    exact tryPaths_exhausted env ecPaths h

theorem get_ec_handle_order_spec_witness :
    get_ec_handle envOpenThird = .ok "\\\\.\\GLOBALROOT\\Device\\CrosECDevice" ∧
    get_ec_handle envDenySecond = .error .AccessDenied ∧
    get_ec_handle envAllFail = .error .DriverMissing :=
  ⟨(get_ec_handle_order_spec envOpenThird).1 2 _ (by decide) (by decide) (by decide),
   (get_ec_handle_order_spec envDenySecond).2.1 1 "\\\\.\\CrosEC" (by decide) (by decide) (by decide),
   (get_ec_handle_order_spec envAllFail).2.2 (by decide)⟩


/-- C2: for any payload within the 256-byte frame capacity,
`send_ec_command` builds the frame with the payload copied to the start of
the fixed buffer; after the transfer, a nonzero result code is surfaced as
`IoError` carrying that code, and a zero result code returns exactly the
first `min(returned, 256)` bytes of the buffer — so two devices whose
responses agree up to the reported length produce the same answer, and
bytes beyond that length are ignored. -/
theorem send_ec_command_spec (env : String → OpenOutcome) (dev : EcCommand → DevResp)
    (command version : Nat) (data : List Nat) (cmd : EcCommand) (h : String)
    (hlen : data.length ≤ CROSEC_CMD_MAX_REQUEST)
    (hopen : get_ec_handle env = .ok h)
    (hcmd : buildEcCommand command version data = some cmd)
    (hacc : (dev cmd).accessDenied = false) :
    cmd.buffer.take data.length = data ∧
    cmd.buffer.length = CROSEC_CMD_MAX_REQUEST ∧
    ((dev cmd).result ≠ 0 →
      send_ec_command env dev command version data =
        some (.error (.IoError ("EC result code: " ++ toString (dev cmd).result)))) ∧
    ((dev cmd).result = 0 →
      send_ec_command env dev command version data =
        some (.ok ((dev cmd).buffer.take (min (dev cmd).returned CROSEC_CMD_MAX_REQUEST)))) ∧
    (∀ dev2 : EcCommand → DevResp,
      (dev2 cmd).accessDenied = false → (dev cmd).result = 0 → (dev2 cmd).result = 0 →
      (dev2 cmd).returned = (dev cmd).returned →
      (dev2 cmd).buffer.take (min (dev cmd).returned CROSEC_CMD_MAX_REQUEST) =
        (dev cmd).buffer.take (min (dev cmd).returned CROSEC_CMD_MAX_REQUEST) →
      send_ec_command env dev2 command version data =
        send_ec_command env dev command version data) := by
  have hbuf : buildEcBuffer data =
      some (data ++ List.replicate (CROSEC_CMD_MAX_REQUEST - data.length) 0) := by
    simp [buildEcBuffer, hlen]
  have hc : cmd = ⟨version, command, data.length, CROSEC_CMD_MAX_REQUEST - HEADER_LEN, 0xFF,
      data ++ List.replicate (CROSEC_CMD_MAX_REQUEST - data.length) 0⟩ := by
    rw [buildEcCommand, hbuf] at hcmd
    simpa using hcmd.symm
  refine ⟨?_, ?_, ?_, ?_, ?_⟩
  · rw [hc]
    simp [List.take_left]
  · rw [hc]
    simp
    omega
  · intro hres
    simp [send_ec_command, hopen, hcmd, hacc, hres]
  · intro hres
    simp [send_ec_command, hopen, hcmd, hacc, hres]
  · intro dev2 hacc2 hres hres2 hret hbytes
    simp [send_ec_command, hopen, hcmd, hacc, hacc2, hres, hres2, hret, hbytes]


theorem send_ec_command_spec_witness :
    cmdEx.buffer.take 3 = [1, 2, 3] ∧
    cmdEx.buffer.length = CROSEC_CMD_MAX_REQUEST ∧
    ((echoDev cmdEx).result ≠ 0 →
      send_ec_command envAllOk echoDev 0x13 0 [1, 2, 3] =
        some (.error (.IoError ("EC result code: " ++ toString (echoDev cmdEx).result)))) ∧
    ((echoDev cmdEx).result = 0 →
      send_ec_command envAllOk echoDev 0x13 0 [1, 2, 3] =
        some (.ok ((echoDev cmdEx).buffer.take (min (echoDev cmdEx).returned CROSEC_CMD_MAX_REQUEST)))) ∧
    (∀ dev2 : EcCommand → DevResp,
      (dev2 cmdEx).accessDenied = false → (echoDev cmdEx).result = 0 → (dev2 cmdEx).result = 0 →
      (dev2 cmdEx).returned = (echoDev cmdEx).returned →
      (dev2 cmdEx).buffer.take (min (echoDev cmdEx).returned CROSEC_CMD_MAX_REQUEST) =
        (echoDev cmdEx).buffer.take (min (echoDev cmdEx).returned CROSEC_CMD_MAX_REQUEST) →
      send_ec_command envAllOk dev2 0x13 0 [1, 2, 3] =
        send_ec_command envAllOk echoDev 0x13 0 [1, 2, 3]) :=
  send_ec_command_spec envAllOk echoDev 0x13 0 [1, 2, 3] cmdEx
    "\\\\.\\GLOBALROOT\\Device\\CrosEC" (by decide) rfl rfl rfl



/-- C3 counterexample: a read-memory transfer whose control operation
fails (`ok = false`, buffer untouched) is still reported as success —
`read_ec_memory` returns `Some` of the zeroed slice rather than any of
`DriverMissing`/`AccessDenied`/`IoError`, because the source discards the
`DeviceIoControl` result (`let _ = ...`) and returns `Option`, not
`Result`. -/
theorem read_ec_memory_claim_cex :
    (mdevNoop 0 4 (List.replicate EC_MEMMAP_SIZE 0)).ok = false ∧
    read_ec_memory envAllOk mdevNoop 0 4 = some (some [0, 0, 0, 0]) :=
  ⟨rfl, rfl⟩

/-- C3 amended: for `length ≤ 255`, `read_ec_memory` returns `None` when
the device cannot be opened (losing the `AccessDenied`/`DriverMissing`
distinction), and otherwise returns `Some` of the first `length` bytes of
the post-transfer buffer — exactly `length` bytes — regardless of whether
the control operation succeeded. -/
theorem read_ec_memory_amended (env : String → OpenOutcome)
    (mdev : Nat → Nat → List Nat → MemResp) (offset length : Nat)
    (hlen : length ≤ EC_MEMMAP_SIZE)
    (hbuf : (mdev offset length (List.replicate EC_MEMMAP_SIZE 0)).buffer.length =
      EC_MEMMAP_SIZE) :
    (∀ e, get_ec_handle env = .error e →
      read_ec_memory env mdev offset length = some none) ∧
    (∀ h, get_ec_handle env = .ok h →
      read_ec_memory env mdev offset length =
        some (some ((mdev offset length (List.replicate EC_MEMMAP_SIZE 0)).buffer.take length)) ∧
      ((mdev offset length (List.replicate EC_MEMMAP_SIZE 0)).buffer.take length).length =
        length) := by
  constructor
  · intro e he
    simp [read_ec_memory, he]
  · intro h hh
    refine ⟨by simp [read_ec_memory, hh, hlen], ?_⟩
    rw [List.length_take, hbuf]
    omega

theorem read_ec_memory_amended_witness :
    (read_ec_memory envAllFail mdevNoop 0 4 = some none) ∧
    (read_ec_memory envAllOk mdevNoop 0 4 =
      some (some ((mdevNoop 0 4 (List.replicate EC_MEMMAP_SIZE 0)).buffer.take 4)) ∧
     ((mdevNoop 0 4 (List.replicate EC_MEMMAP_SIZE 0)).buffer.take 4).length = 4) :=
  ⟨(read_ec_memory_amended envAllFail mdevNoop 0 4 (by decide)
      (by simp [mdevNoop, EC_MEMMAP_SIZE])).1 .DriverMissing rfl,
   (read_ec_memory_amended envAllOk mdevNoop 0 4 (by decide)
      (by simp [mdevNoop, EC_MEMMAP_SIZE])).2 "\\\\.\\GLOBALROOT\\Device\\CrosEC" rfl⟩

/-- C8 counterexample: the claim asserts the buffer copy and final slice
are in bounds for every input; in fact a 257-byte payload makes
`send_ec_command`'s `cmd.buffer[..data.len()]` slice panic, and a 256-byte
length makes `read_ec_memory`'s `rm.buffer[..length]` slice panic (`none`
models the panic). -/
theorem transport_panic_cex :
    send_ec_command envAllOk echoDev 0x13 0 (List.replicate 257 0) = none ∧
    read_ec_memory envAllOk mdevNoop 0 256 = none :=
  ⟨rfl, rfl⟩

/-- C8 amended: `send_ec_command` and `read_ec_memory` return without
aborting (a typed value, never the `none` that models a panic) for every
payload within the 256-byte frame capacity and every length within the
255-byte memory-read capacity. -/
theorem transport_in_bounds (env : String → OpenOutcome) (dev : EcCommand → DevResp)
    (mdev : Nat → Nat → List Nat → MemResp) (command version : Nat) (data : List Nat)
    (offset length : Nat)
    (h1 : data.length ≤ CROSEC_CMD_MAX_REQUEST) (h2 : length ≤ EC_MEMMAP_SIZE) :
    (send_ec_command env dev command version data).isSome ∧
    (read_ec_memory env mdev offset length).isSome := by
  constructor
  · cases hE : get_ec_handle env with
    | error e => simp [send_ec_command, hE]
    | ok h =>
      have hb : buildEcCommand command version data =
          some ⟨version, command, data.length, CROSEC_CMD_MAX_REQUEST - HEADER_LEN, 0xFF,
            data ++ List.replicate (CROSEC_CMD_MAX_REQUEST - data.length) 0⟩ := by
        simp [buildEcCommand, buildEcBuffer, h1]
      simp only [send_ec_command, hE, hb]
      split_ifs <;> simp
  · cases hE : get_ec_handle env with
    | error e => simp [read_ec_memory, hE]
    | ok h => simp [read_ec_memory, hE, h2]

theorem transport_in_bounds_witness :
    (send_ec_command envAllOk echoDev 0x13 0 [1, 2, 3]).isSome ∧
    (read_ec_memory envAllOk mdevNoop 0 4).isSome :=
  transport_in_bounds envAllOk echoDev mdevNoop 0x13 0 [1, 2, 3] 0 4 (by decide) (by decide)


theorem filterMap_if_eq {A B : Type} (g : A → Option B) (p : A → Bool) (f : A → B)
    (hg : ∀ a, g a = if p a then some (f a) else none) :
    ∀ l : List A, l.filterMap g = (l.filter p).map f := by
  intro l
  induction l with
  | nil => rfl
  | cons a l ih =>
    rw [List.filterMap_cons, List.filter_cons, hg a]
    by_cases hp : p a
    · simp [hp, ih]
    · simp [hp, ih]

theorem decode_temps_filter (data : List Nat) :
    decode_temps data =
      (data.filter (fun b : Nat => decide (b < 0xFC) && decide (-50 < (b : Int) - 73) &&
        decide ((b : Int) - 73 < 150))).map (fun b : Nat => (b : Int) - 73) := by
  refine filterMap_if_eq tempFromByte _ _ (fun a => ?_) data
  unfold tempFromByte
  by_cases h1 : a < 0xFC
  · by_cases h2 : -50 < (a : Int) - 73
    · by_cases h3 : (a : Int) - 73 < 150
      · simp [h1, h2, h3]
      · simp [h1, h2, h3]
    · simp [h1, h2]
  · simp [h1]

/-- C4: `read_temps` keeps, in order, exactly those bytes `b < 0xFC`
whose decoded value `b − 73` lies strictly inside (−50, 150), mapping each
kept byte to `b − 73` °C and silently dropping sentinels and out-of-band
values; in particular `[73, 0xFF, 120]` decodes to `[0, 47]`. -/
theorem read_temps_spec (env : String → OpenOutcome)
    (mdev : Nat → Nat → List Nat → MemResp) (data : List Nat)
    (hread : read_ec_memory env mdev 0x00 0x0F = some (some data)) :
    read_temps env mdev =
      (data.filter (fun b : Nat => decide (b < 0xFC) && decide (-50 < (b : Int) - 73) &&
        decide ((b : Int) - 73 < 150))).map (fun b : Nat => (b : Int) - 73) ∧
    decode_temps [73, 0xFF, 120] = [0, 47] := by
  refine ⟨?_, by decide⟩
  rw [← decode_temps_filter]
  simp [read_temps, hread]

theorem read_temps_spec_witness :
    read_temps envAllOk mdevTemps =
      ([73, 255, 120, 0, 0, 0, 0, 0, 0, 0, 0, 0, 0, 0, 0].filter
        (fun b : Nat => decide (b < 0xFC) && decide (-50 < (b : Int) - 73) &&
          decide ((b : Int) - 73 < 150))).map (fun b : Nat => (b : Int) - 73) ∧
    decode_temps [73, 0xFF, 120] = [0, 47] :=
  read_temps_spec envAllOk mdevTemps [73, 255, 120, 0, 0, 0, 0, 0, 0, 0, 0, 0, 0, 0, 0] rfl

/-- C10: the fan-curve duty computation on a degenerate (empty) curve —
which violates the spec's at-least-2-points invariant and brackets no
segment — returns the fixed fallback duty 50 in both implementations: the
`interpolate_curve` fallback arm and the `apply_fan_curve` loop, whose
duty is initialised to 50 and never assigned. -/
theorem fan_curve_fallback (t : ℚ) :
    interpolate_curve [] t = 50 ∧ applyFanCurveDuty [] t = 50 :=
  ⟨rfl, rfl⟩


/-- C9 counterexample: the ryzenadj supervisor loop does not behave as
claimed while its slot is `Some`: no liveness probe is issued and no
failure can set the slot to `None` — the tick leaves the state entirely
unchanged even in a failing environment, so the claimed `Some → None`
demotion never occurs in that loop. -/
theorem ryzenadj_resolver_no_probe_cex :
    ryzenadjTick (H := Unit) (.error "liveness probe failed") ⟨some (), 0⟩ =
      ⟨some (), 0⟩ :=
  rfl

/-- C9 amended: per tick, the framework-tool loop probes while `Some`
(a failed probe clears the slot, a successful one leaves the state
unchanged) and resolves while `None` (success stores `Some` and zeroes the
error counter, failure increments it); the ryzenadj loop resolves while
`None` in the same way but never probes or demotes while `Some`; after a
failed probe a reader sees `Some → None`, and a subsequent successful
resolution restores `Some`. -/
theorem resolver_ticks_spec {H : Type} (s : ResolverState H) (res : Except String H)
    (probeOk : Bool) :
    (∀ h, s.slot = some h → probeOk = false →
      frameworkToolTick probeOk res s = ⟨none, 0⟩) ∧
    (∀ h, s.slot = some h → probeOk = true →
      frameworkToolTick probeOk res s = s) ∧
    (∀ h, s.slot = none → res = .ok h →
      frameworkToolTick probeOk res s = ⟨some h, 0⟩) ∧
    (∀ e, s.slot = none → res = .error e →
      frameworkToolTick probeOk res s = ⟨none, s.consecutiveErrors + 1⟩) ∧
    (∀ h, s.slot = none → res = .ok h → ryzenadjTick res s = ⟨some h, 0⟩) ∧
    (∀ e, s.slot = none → res = .error e →
      ryzenadjTick res s = ⟨none, s.consecutiveErrors + 1⟩) ∧
    (∀ h, s.slot = some h → ryzenadjTick res s = s) ∧
    (∀ h h2, s.slot = some h →
      (frameworkToolTick false res s).slot = none ∧
      (frameworkToolTick probeOk (.ok h2) (frameworkToolTick false res s)).slot = some h2) := by
  obtain ⟨slot, errs⟩ := s
  refine ⟨?_, ?_, ?_, ?_, ?_, ?_, ?_, ?_⟩ <;> intro a
  · intro ha hp
    subst hp
    cases slot <;> simp_all [frameworkToolTick]
  · intro ha hp
    subst hp
    cases slot <;> simp_all [frameworkToolTick]
  · intro ha hr
    subst hr
    cases slot <;> simp_all [frameworkToolTick]
  · intro ha hr
    subst hr
    cases slot <;> simp_all [frameworkToolTick]
  · intro ha hr
    subst hr
    cases slot <;> simp_all [ryzenadjTick]
  · intro ha hr
    subst hr
    cases slot <;> simp_all [ryzenadjTick]
  · intro ha
    cases slot <;> simp_all [ryzenadjTick]
  · intro h2 ha
    cases slot with
    | none => simp at ha
    | some x =>
      constructor
      · simp [frameworkToolTick]
      · simp [frameworkToolTick]

theorem resolver_ticks_spec_witness :
    (frameworkToolTick (H := Unit) false (.error "e") ⟨some (), 2⟩ = ⟨none, 0⟩) ∧
    (frameworkToolTick (H := Unit) true (.error "e") ⟨some (), 2⟩ = ⟨some (), 2⟩) ∧
    (frameworkToolTick (H := Unit) true (.ok ()) ⟨none, 2⟩ = ⟨some (), 0⟩) ∧
    (frameworkToolTick (H := Unit) true (.error "e") ⟨none, 2⟩ = ⟨none, 3⟩) ∧
    (ryzenadjTick (H := Unit) (.ok ()) ⟨none, 2⟩ = ⟨some (), 0⟩) ∧
    (ryzenadjTick (H := Unit) (.error "e") ⟨none, 2⟩ = ⟨none, 3⟩) ∧
    (ryzenadjTick (H := Unit) (.error "e") ⟨some (), 2⟩ = ⟨some (), 2⟩) ∧
    ((frameworkToolTick (H := Unit) false (.error "e") ⟨some (), 2⟩).slot = none ∧
      (frameworkToolTick (H := Unit) true (.ok ())
        (frameworkToolTick (H := Unit) false (.error "e") ⟨some (), 2⟩)).slot = some ()) := by
  have h1 := resolver_ticks_spec (H := Unit) ⟨some (), 2⟩ (.error "e") false
  have h2 := resolver_ticks_spec (H := Unit) ⟨some (), 2⟩ (.error "e") true
  have h3 := resolver_ticks_spec (H := Unit) ⟨none, 2⟩ (.ok ()) true
  have h4 := resolver_ticks_spec (H := Unit) ⟨none, 2⟩ (.error "e") true
  exact ⟨h1.1 () rfl rfl, h2.2.1 () rfl rfl, h3.2.2.1 () rfl rfl,
    h4.2.2.2.1 "e" rfl rfl, h3.2.2.2.2.1 () rfl rfl, h4.2.2.2.2.2.1 "e" rfl rfl,
    h2.2.2.2.2.2.2.1 () rfl, h2.2.2.2.2.2.2.2 () () rfl⟩


/-- C1: two callers arriving at the single-flight cache for the same key
while no live entry exists and a fetch is already in flight both join the
in-flight fetch — neither receives an immediate value, the underlying
fetch count does not increase — and when that single fetch completes,
both receive exactly its result (the same value or the same error, as does
every other waiter). -/
theorem cache_single_flight {α : Type} (s : CacheState α) (now ttl c1 c2 : Nat)
    (hlive : liveEntry s now ttl = none) (hinfl : s.inflight = true) :
    (cacheArrive now ttl c1 s).2 = none ∧
    (cacheArrive now ttl c2 (cacheArrive now ttl c1 s).1).2 = none ∧
    (cacheArrive now ttl c2 (cacheArrive now ttl c1 s).1).1.fetches = s.fetches ∧
    (∀ now2 ce r,
      (c1, r) ∈ (cacheComplete now2 ce r
        (cacheArrive now ttl c2 (cacheArrive now ttl c1 s).1).1).2 ∧
      (c2, r) ∈ (cacheComplete now2 ce r
        (cacheArrive now ttl c2 (cacheArrive now ttl c1 s).1).1).2 ∧
      (∀ p ∈ (cacheComplete now2 ce r
        (cacheArrive now ttl c2 (cacheArrive now ttl c1 s).1).1).2, p.2 = r)) := by
  obtain ⟨entry, inflight, waiters, fetches⟩ := s
  simp only [CacheState.mk.injEq] at *
  subst hinfl
  have ha1 : cacheArrive now ttl c1 ⟨entry, true, waiters, fetches⟩ =
      (⟨entry, true, c1 :: waiters, fetches⟩, none) := by
    simp [cacheArrive, hlive]
  have hlive2 : liveEntry (⟨entry, true, c1 :: waiters, fetches⟩ : CacheState α) now ttl =
      none := hlive
  have ha2 : cacheArrive now ttl c2 (⟨entry, true, c1 :: waiters, fetches⟩ : CacheState α) =
      (⟨entry, true, c2 :: c1 :: waiters, fetches⟩, none) := by
    simp [cacheArrive, hlive2]
  refine ⟨by simp [ha1], by simp [ha1, ha2], by simp [ha1, ha2], ?_⟩
  intro now2 ce r
  simp [ha1, ha2, cacheComplete]

theorem cache_single_flight_witness :
    (cacheArrive (α := Nat) 0 5 1 ⟨none, true, [], 1⟩).2 = none ∧
    (cacheArrive 0 5 2 (cacheArrive (α := Nat) 0 5 1 ⟨none, true, [], 1⟩).1).2 = none ∧
    (cacheArrive 0 5 2 (cacheArrive (α := Nat) 0 5 1 ⟨none, true, [], 1⟩).1).1.fetches = 1 ∧
    (∀ now2 ce r,
      (1, r) ∈ (cacheComplete now2 ce r
        (cacheArrive 0 5 2 (cacheArrive (α := Nat) 0 5 1 ⟨none, true, [], 1⟩).1).1).2 ∧
      (2, r) ∈ (cacheComplete now2 ce r
        (cacheArrive 0 5 2 (cacheArrive (α := Nat) 0 5 1 ⟨none, true, [], 1⟩).1).1).2 ∧
      (∀ p ∈ (cacheComplete now2 ce r
        (cacheArrive 0 5 2 (cacheArrive (α := Nat) 0 5 1 ⟨none, true, [], 1⟩).1).1).2,
        p.2 = r)) :=
  cache_single_flight ⟨none, true, [], 1⟩ 0 5 1 2 rfl rfl


theorem foldl_min_props :
    ∀ (t : List ℚ) (a : ℚ), (t.foldl min a = a ∨ t.foldl min a ∈ t) ∧
      t.foldl min a ≤ a ∧ (∀ x ∈ t, t.foldl min a ≤ x) := by
  intro t
  induction t with
  | nil => intro a; exact ⟨Or.inl rfl, le_refl a, by simp⟩
  | cons h t ih =>
    intro a
    have ⟨hmem, hle, hall⟩ := ih (min a h)
    refine ⟨?_, ?_, ?_⟩
    · rw [List.foldl_cons]
      rcases hmem with he | hm
      · rcases min_choice a h with hc | hc
        · exact Or.inl (he.trans hc)
        · exact Or.inr (by simp [he.trans hc])
      · exact Or.inr (by simp [hm])
    · rw [List.foldl_cons]
      exact hle.trans (min_le_left a h)
    · intro x hx
      rw [List.foldl_cons]
      rcases List.mem_cons.mp hx with hxh | hxt
      · exact hxh ▸ hle.trans (min_le_right a h)
      · exact hall x hxt

/-- C5: `parse_info` collects the numeric values of pipe-delimited rows
whose name matches STAPM LIMIT, PPT LIMIT FAST or PPT LIMIT SLOW; when no
such row parses the TDP field is left unset, and otherwise the reported
TDP is the minimum of the collected list — an element below or equal to
every other — rounded to nearest and floored at 1 watt; on the concrete
dump with limits 45.000/60.000/50.000 the result is TDP 45. -/
theorem parse_info_tdp_spec (text : String) :
    ((collectInfo text).1 = [] → (parse_info text).tdp_watts = none) ∧
    ((collectInfo text).1 ≠ [] → ∃ m, m ∈ (collectInfo text).1 ∧
      (∀ x ∈ (collectInfo text).1, m ≤ x) ∧
      (parse_info text).tdp_watts = some (intToU32 (max (roundHalfAway m) 1))) ∧
    parse_info ryzenadjDump = ⟨some 45, none⟩ := by
  refine ⟨?_, ?_, by decide⟩
  · intro h
    by_cases htext : text.data = []
    · simp [parse_info, htext]
    · simp [parse_info, htext, h]
  · intro hne
    by_cases htext : text.data = []
    · exfalso
      apply hne
      rw [collectInfo, htext]
      rfl
    · cases hl : (collectInfo text).1 with
      | nil => exact absurd hl hne
      | cons h t =>
        have ⟨hmem, hle, hall⟩ := foldl_min_props t h
        refine ⟨t.foldl min h, ?_, ?_, ?_⟩
        · rcases hmem with he | hm
          · simp [he]
          · simp [hm]
        · intro x hx
          rcases List.mem_cons.mp hx with hxh | hxt
          · exact hxh ▸ hle
          · exact hall x hxt
        · simp [parse_info, htext, hl]

theorem parse_info_tdp_spec_witness :
    ∃ m, m ∈ (collectInfo ryzenadjDump).1 ∧
      (∀ x ∈ (collectInfo ryzenadjDump).1, m ≤ x) ∧
      (parse_info ryzenadjDump).tdp_watts = some (intToU32 (max (roundHalfAway m) 1)) :=
  (parse_info_tdp_spec ryzenadjDump).2.1 (by decide)


theorem findBracket_eq (curve : List FanPoint) (t : ℚ) :
    findBracket curve t =
      (curve.foldl (fun acc p => if p.temp ≤ t then some p else acc) none,
       curve.foldl (fun acc p => if p.temp ≥ t ∧ acc = none then some p else acc) none) := by
  have key : ∀ (l : List FanPoint) (a b : Option FanPoint),
      l.foldl (fun acc p => (if p.temp ≤ t then some p else acc.1,
        if p.temp ≥ t ∧ acc.2 = none then some p else acc.2)) (a, b) =
      (l.foldl (fun acc p => if p.temp ≤ t then some p else acc) a,
       l.foldl (fun acc p => if p.temp ≥ t ∧ acc = none then some p else acc) b) := by
    intro l
    induction l with
    | nil => intro a b; rfl
    | cons p rest ih => intro a b; simp only [List.foldl_cons]; exact ih _ _
  exact key curve none none

theorem lowerFold_untouched (t : ℚ) :
    ∀ (l : List FanPoint) (a : Option FanPoint), (∀ x ∈ l, ¬ x.temp ≤ t) →
      l.foldl (fun acc p => if p.temp ≤ t then some p else acc) a = a := by
  intro l
  induction l with
  | nil => intro a _; rfl
  | cons p rest ih =>
    intro a hall
    rw [List.foldl_cons, if_neg (hall p (by simp))]
    exact ih a (fun x hx => hall x (by simp [hx]))

theorem lowerFold_last (t : ℚ) (l1 l2 : List FanPoint) (p : FanPoint)
    (a : Option FanPoint) (hp : p.temp ≤ t) (h2 : ∀ x ∈ l2, ¬ x.temp ≤ t) :
    (l1 ++ p :: l2).foldl (fun acc p => if p.temp ≤ t then some p else acc) a = some p := by
  rw [List.foldl_append, List.foldl_cons, if_pos hp]
  exact lowerFold_untouched t l2 (some p) h2

theorem upperFold_stays (t : ℚ) :
    ∀ (l : List FanPoint) (x : FanPoint),
      l.foldl (fun acc p => if p.temp ≥ t ∧ acc = none then some p else acc) (some x) =
        some x := by
  intro l
  induction l with
  | nil => intro x; rfl
  | cons p rest ih =>
    intro x
    rw [List.foldl_cons, if_neg (by simp)]
    exact ih x

theorem upperFold_none (t : ℚ) :
    ∀ (l : List FanPoint), (∀ x ∈ l, ¬ t ≤ x.temp) →
      l.foldl (fun acc p => if p.temp ≥ t ∧ acc = none then some p else acc) none = none := by
  intro l
  induction l with
  | nil => intro _; rfl
  | cons p rest ih =>
    intro hall
    rw [List.foldl_cons, if_neg (by simp [hall p (by simp)])]
    exact ih (fun x hx => hall x (by simp [hx]))

theorem upperFold_first (t : ℚ) (l1 l2 : List FanPoint) (q : FanPoint)
    (h1 : ∀ x ∈ l1, ¬ t ≤ x.temp) (hq : t ≤ q.temp) :
    (l1 ++ q :: l2).foldl
      (fun acc p => if p.temp ≥ t ∧ acc = none then some p else acc) none = some q := by
  rw [List.foldl_append, upperFold_none t l1 h1, List.foldl_cons, if_pos (by simp [hq])]
  exact upperFold_stays t l2 q

theorem sortedStrict_pairwise :
    ∀ (l : List FanPoint), sortedStrict l = true →
      l.Pairwise (fun a b => a.temp < b.temp)
  | [], _ => List.Pairwise.nil
  | [p], _ => by simp
  | p :: q :: r, h => by
    simp only [sortedStrict, Bool.and_eq_true, decide_eq_true_eq] at h
    have ih := sortedStrict_pairwise (q :: r) h.2
    refine List.Pairwise.cons ?_ ih
    intro b hb
    rcases List.mem_cons.mp hb with rfl | hbr
    · exact h.1
    · exact lt_trans h.1 ((List.pairwise_cons.mp ih).1 b hbr)


theorem interpolate_at_point (t : ℚ) (l1 l2 : List FanPoint) (p : FanPoint)
    (h1 : ∀ x ∈ l1, x.temp < t) (h2 : ∀ y ∈ l2, t < y.temp) (hp : t = p.temp) :
    interpolate_curve (l1 ++ p :: l2) t = p.duty := by
  rw [interpolate_curve, if_neg (by simp), findBracket_eq]
  rw [lowerFold_last t l1 l2 p none (le_of_eq hp.symm)
    (fun x hx => not_le.mpr (h2 x hx))]
  rw [upperFold_first t l1 l2 p (fun x hx => not_le.mpr (h1 x hx)) (le_of_eq hp)]
  simp

theorem interpolate_below (t : ℚ) (p0 : FanPoint) (rest : List FanPoint)
    (hrest : ∀ y ∈ rest, p0.temp < y.temp) (ht : t ≤ p0.temp) :
    interpolate_curve (p0 :: rest) t = p0.duty := by
  rcases eq_or_lt_of_le ht with heq | hlt
  · have := interpolate_at_point t [] rest p0 (by simp)
      (fun y hy => lt_of_le_of_lt ht (hrest y hy)) heq
    simpa using this
  · rw [interpolate_curve, if_neg (by simp), findBracket_eq]
    rw [lowerFold_untouched t (p0 :: rest) none ?hall]
    case hall =>
      intro x hx
      rcases List.mem_cons.mp hx with rfl | hxr
      · exact not_le.mpr hlt
      · exact not_le.mpr (lt_trans hlt (hrest x hxr))
    have hu := upperFold_first t [] rest p0 (by simp) (le_of_lt hlt)
    rw [List.nil_append] at hu
    rw [hu]

theorem interpolate_above (t : ℚ) (init : List FanPoint) (pl : FanPoint)
    (hinit : ∀ x ∈ init, x.temp < pl.temp) (ht : pl.temp ≤ t) :
    interpolate_curve (init ++ [pl]) t = pl.duty := by
  rcases eq_or_lt_of_le ht with heq | hlt
  · exact interpolate_at_point t init [] pl
      (fun x hx => heq ▸ hinit x hx) (by simp) heq.symm
  · rw [interpolate_curve, if_neg (by simp), findBracket_eq]
    rw [lowerFold_last t init [] pl none (le_of_lt hlt) (by simp)]
    rw [upperFold_none t (init ++ [pl]) ?hall]
    case hall =>
      intro x hx
      rcases List.mem_append.mp hx with hxi | hxp
      · exact not_le.mpr (lt_trans (hinit x hxi) hlt)
      · rcases List.mem_singleton.mp hxp with rfl
        exact not_le.mpr hlt

theorem interpolate_between (t : ℚ) (l1 l2 : List FanPoint) (p q : FanPoint)
    (h1 : ∀ x ∈ l1, x.temp < p.temp) (hpq : p.temp < q.temp)
    (h2 : ∀ y ∈ l2, q.temp < y.temp) (hp : p.temp < t) (hq : t < q.temp) :
    interpolate_curve (l1 ++ p :: q :: l2) t =
      p.duty + (q.duty - p.duty) * ((t - p.temp) / (q.temp - p.temp)) := by
  rw [interpolate_curve, if_neg (by simp), findBracket_eq]
  rw [lowerFold_last t l1 (q :: l2) p none (le_of_lt hp) ?hall]
  case hall =>
    intro x hx
    rcases List.mem_cons.mp hx with rfl | hxr
    · exact not_le.mpr hq
    · exact not_le.mpr (lt_trans hq (h2 x hxr))
  have hu := upperFold_first t (l1 ++ [p]) l2 q ?hall2 (le_of_lt hq)
  case hall2 =>
    intro x hx
    rcases List.mem_append.mp hx with hxi | hxp
    · exact not_le.mpr (lt_trans (h1 x hxi) hp)
    · rcases List.mem_singleton.mp hxp with rfl
      exact not_le.mpr hp
  rw [List.append_assoc, List.singleton_append] at hu
  rw [hu]
  simp [ne_of_lt hpq]


theorem applyGo_cons_cons (curve : List FanPoint) (t : ℚ) (i : Nat) (p q : FanPoint)
    (rest2 : List FanPoint) :
    applyGo curve t i (p :: q :: rest2) =
      (if i = 0 ∧ t ≤ p.temp then p.duty
      else if i = curve.length - 1 ∧ p.temp ≤ t then p.duty
      else if i < curve.length - 1 ∧ p.temp ≤ t ∧ t ≤ q.temp then
        p.duty + (q.duty - p.duty) * ((t - p.temp) / (q.temp - p.temp))
      else applyGo curve t (i + 1) (q :: rest2)) :=
  rfl

theorem applyGo_single (curve : List FanPoint) (t : ℚ) (i : Nat) (p : FanPoint) :
    applyGo curve t i [p] =
      (if i = 0 ∧ t ≤ p.temp then p.duty
      else if i = curve.length - 1 ∧ p.temp ≤ t then p.duty
      else applyGo curve t (i + 1) []) :=
  rfl

theorem applyGo_skip (curve : List FanPoint) (t : ℚ) :
    ∀ (l1 srest : List FanPoint) (i : Nat),
      i + l1.length + srest.length = curve.length →
      srest ≠ [] →
      (∀ x ∈ l1, x.temp < t) →
      (∀ y ∈ srest.take 1, ¬ t ≤ y.temp) →
      applyGo curve t i (l1 ++ srest) = applyGo curve t (i + l1.length) srest := by
  intro l1
  induction l1 with
  | nil => intro srest i _ _ _ _; simp
  | cons x l1' ih =>
    intro srest i hlen hne hx hy
    have hxt : x.temp < t := hx x (by simp)
    have hsne : srest.length ≥ 1 := by
      cases srest with
      | nil => exact absurd rfl hne
      | cons a b => simp
    have hrec : applyGo curve t (i + 1) (l1' ++ srest) =
        applyGo curve t (i + 1 + l1'.length) srest := by
      refine ih srest (i + 1) ?_ hne (fun z hz => hx z (by simp [hz])) hy
      simp only [List.length_cons] at hlen
      omega
    cases hsplit : l1' ++ srest with
    | nil =>
      exfalso
      rcases List.append_eq_nil.mp hsplit with ⟨_, h2⟩
      exact hne h2
    | cons y ys =>
      have hyt : ¬ t ≤ y.temp := by
        cases l1' with
        | nil =>
          rw [List.nil_append] at hsplit
          exact hy y (by rw [hsplit]; simp)
        | cons z zs =>
          rw [List.cons_append] at hsplit
          have hzy : z = y := (List.cons.injEq z (zs ++ srest) y ys).mp hsplit |>.1
          subst hzy
          exact not_le.mpr (hx z (by simp))
      rw [List.cons_append, hsplit, applyGo_cons_cons]
      rw [if_neg (fun hc => absurd hc.2 (not_le.mpr hxt))]
      rw [if_neg (fun hc => by
        simp only [List.length_cons] at hlen
        omega)]
      rw [if_neg (fun hc => absurd hc.2.2 hyt)]
      rw [← hsplit, hrec]
      congr 1
      simp only [List.length_cons]
      omega


theorem apply_below (t : ℚ) (p0 : FanPoint) (rest : List FanPoint) (ht : t ≤ p0.temp) :
    applyFanCurveDuty (p0 :: rest) t = p0.duty := by
  cases rest with
  | nil => rw [applyFanCurveDuty, applyGo_single, if_pos ⟨rfl, ht⟩]
  | cons q r => rw [applyFanCurveDuty, applyGo_cons_cons, if_pos ⟨rfl, ht⟩]

theorem apply_at_point (t : ℚ) (l1 l2 : List FanPoint) (p : FanPoint)
    (h1 : ∀ x ∈ l1, x.temp < t) (hp : t = p.temp) :
    applyFanCurveDuty (l1 ++ p :: l2) t = p.duty := by
  rcases List.eq_nil_or_concat l1 with rfl | ⟨l1', x, rfl⟩
  · rw [List.nil_append]
    exact apply_below t p l2 (le_of_eq hp)
  · rw [List.concat_eq_append] at h1 ⊢
    have hassoc : (l1' ++ [x]) ++ p :: l2 = l1' ++ (x :: p :: l2) := by simp
    have hxt : x.temp < t := h1 x (by simp)
    rw [applyFanCurveDuty, hassoc]
    rw [applyGo_skip _ t l1' (x :: p :: l2) 0 (by simp) (by simp)
      (fun z hz => h1 z (by simp [hz])) (fun y hy => by
        simp at hy
        subst hy
        exact not_le.mpr hxt)]
    rw [applyGo_cons_cons]
    rw [if_neg (fun hc => absurd hc.2 (not_le.mpr hxt))]
    rw [if_neg (fun hc => by
      have h2 := hc.1
      simp only [List.length_append, List.length_cons, Nat.zero_add] at h2
      omega)]
    rw [if_pos ⟨by simp [List.length_append], le_of_lt hxt, le_of_eq hp⟩]
    subst hp
    rw [div_self (sub_ne_zero.mpr (ne_of_gt hxt))]
    ring

theorem apply_above (t : ℚ) (init : List FanPoint) (pl : FanPoint)
    (hinit : ∀ x ∈ init, x.temp < pl.temp) (ht : pl.temp ≤ t) :
    applyFanCurveDuty (init ++ [pl]) t = pl.duty := by
  rcases eq_or_lt_of_le ht with heq | hlt
  · exact apply_at_point t init [] pl (fun x hx => heq ▸ hinit x hx) heq.symm
  · rw [applyFanCurveDuty]
    rw [applyGo_skip _ t init [pl] 0 (by simp) (by simp)
      (fun z hz => lt_trans (hinit z hz) hlt) (fun y hy => by
        simp at hy
        subst hy
        exact not_le.mpr hlt)]
    rw [applyGo_single]
    rw [if_neg (fun hc => absurd hc.2 (not_le.mpr hlt))]
    rw [if_pos ⟨by simp, le_of_lt hlt⟩]

theorem apply_between (t : ℚ) (l1 l2 : List FanPoint) (p q : FanPoint)
    (h1 : ∀ x ∈ l1, x.temp < p.temp) (hp : p.temp < t) (hq : t < q.temp) :
    applyFanCurveDuty (l1 ++ p :: q :: l2) t =
      p.duty + (q.duty - p.duty) * ((t - p.temp) / (q.temp - p.temp)) := by
  rw [applyFanCurveDuty]
  rw [applyGo_skip _ t l1 (p :: q :: l2) 0 (by simp) (by simp)
    (fun z hz => lt_trans (h1 z hz) hp) (fun y hy => by
      simp at hy
      subst hy
      exact not_le.mpr hp)]
  rw [applyGo_cons_cons]
  rw [if_neg (fun hc => absurd hc.2 (not_le.mpr hp))]
  rw [if_neg (fun hc => by
    have h2 := hc.1
    simp only [List.length_append, List.length_cons, Nat.zero_add] at h2
    omega)]
  rw [if_pos ⟨by simp [List.length_append], le_of_lt hp, le_of_lt hq⟩]


/-- C6: for a curve of at least two points sorted strictly ascending by
temperature, both duty computations (`interpolate_curve` and the
`apply_fan_curve` loop) return the first point's duty at or below the
first temperature, the last point's duty at or above the last temperature,
the exact duty of any point whose temperature equals `t`, and otherwise
`d1 + (d2 − d1)·(t − t1)/(t2 − t1)` for the bracketing points. -/
theorem fan_curve_interp_spec (curve : List FanPoint) (t : ℚ)
    (hs : sortedStrict curve = true) (hlen : 2 ≤ curve.length) :
    (∀ p0 rest, curve = p0 :: rest → t ≤ p0.temp →
      interpolate_curve curve t = p0.duty ∧ applyFanCurveDuty curve t = p0.duty) ∧
    (∀ init pl, curve = init ++ [pl] → pl.temp ≤ t →
      interpolate_curve curve t = pl.duty ∧ applyFanCurveDuty curve t = pl.duty) ∧
    (∀ l1 p l2, curve = l1 ++ p :: l2 → t = p.temp →
      interpolate_curve curve t = p.duty ∧ applyFanCurveDuty curve t = p.duty) ∧
    (∀ l1 p q l2, curve = l1 ++ p :: q :: l2 → p.temp < t → t < q.temp →
      interpolate_curve curve t =
        p.duty + (q.duty - p.duty) * ((t - p.temp) / (q.temp - p.temp)) ∧
      applyFanCurveDuty curve t =
        p.duty + (q.duty - p.duty) * ((t - p.temp) / (q.temp - p.temp))) := by
  have hpw := sortedStrict_pairwise curve hs
  refine ⟨?_, ?_, ?_, ?_⟩
  · intro p0 rest hc ht
    subst hc
    have h := List.pairwise_cons.mp hpw
    exact ⟨interpolate_below t p0 rest h.1 ht, apply_below t p0 rest ht⟩
  · intro init pl hc ht
    subst hc
    rw [List.pairwise_append] at hpw
    have hinit : ∀ x ∈ init, x.temp < pl.temp := fun x hx => hpw.2.2 x hx pl (by simp)
    exact ⟨interpolate_above t init pl hinit ht, apply_above t init pl hinit ht⟩
  · intro l1 p l2 hc ht
    subst hc
    rw [List.pairwise_append] at hpw
    have h1 : ∀ x ∈ l1, x.temp < t := fun x hx => ht ▸ hpw.2.2 x hx p (by simp)
    have h2 : ∀ y ∈ l2, t < y.temp := by
      have hcp := List.pairwise_cons.mp hpw.2.1
      intro y hy
      exact ht ▸ hcp.1 y hy
    exact ⟨interpolate_at_point t l1 l2 p h1 h2 ht, apply_at_point t l1 l2 p h1 ht⟩
  · intro l1 p q l2 hc hp hq
    subst hc
    rw [List.pairwise_append] at hpw
    have h1 : ∀ x ∈ l1, x.temp < p.temp := fun x hx => hpw.2.2 x hx p (by simp)
    have hc2 := List.pairwise_cons.mp hpw.2.1
    have hpq : p.temp < q.temp := hc2.1 q (by simp)
    have h2 : ∀ y ∈ l2, q.temp < y.temp := (List.pairwise_cons.mp hc2.2).1
    exact ⟨interpolate_between t l1 l2 p q h1 hpq h2 hp hq,
           apply_between t l1 l2 p q h1 hp hq⟩

theorem fan_curve_interp_spec_witness :
    (interpolate_curve curveEx 30 = (⟨40, 20⟩ : FanPoint).duty ∧
      applyFanCurveDuty curveEx 30 = (⟨40, 20⟩ : FanPoint).duty) ∧
    (interpolate_curve curveEx 90 = (⟨80, 100⟩ : FanPoint).duty ∧
      applyFanCurveDuty curveEx 90 = (⟨80, 100⟩ : FanPoint).duty) ∧
    (interpolate_curve curveEx 60 = (⟨60, 40⟩ : FanPoint).duty ∧
      applyFanCurveDuty curveEx 60 = (⟨60, 40⟩ : FanPoint).duty) ∧
    (interpolate_curve curveEx 50 =
      (⟨40, 20⟩ : FanPoint).duty + ((⟨60, 40⟩ : FanPoint).duty - (⟨40, 20⟩ : FanPoint).duty) *
        ((50 - (⟨40, 20⟩ : FanPoint).temp) /
          ((⟨60, 40⟩ : FanPoint).temp - (⟨40, 20⟩ : FanPoint).temp)) ∧
      applyFanCurveDuty curveEx 50 =
      (⟨40, 20⟩ : FanPoint).duty + ((⟨60, 40⟩ : FanPoint).duty - (⟨40, 20⟩ : FanPoint).duty) *
        ((50 - (⟨40, 20⟩ : FanPoint).temp) /
          ((⟨60, 40⟩ : FanPoint).temp - (⟨40, 20⟩ : FanPoint).temp))) :=
  ⟨(fan_curve_interp_spec curveEx 30 (by decide) (by decide)).1
      ⟨40, 20⟩ [⟨60, 40⟩, ⟨80, 100⟩] rfl (by decide),
   (fan_curve_interp_spec curveEx 90 (by decide) (by decide)).2.1
      [⟨40, 20⟩, ⟨60, 40⟩] ⟨80, 100⟩ rfl (by decide),
   (fan_curve_interp_spec curveEx 60 (by decide) (by decide)).2.2.1
      [⟨40, 20⟩] ⟨60, 40⟩ [⟨80, 100⟩] rfl (by decide),
   (fan_curve_interp_spec curveEx 50 (by decide) (by decide)).2.2.2
      [] ⟨40, 20⟩ ⟨60, 40⟩ [⟨80, 100⟩] rfl (by decide) (by decide)⟩

end FrameworkControl
